import Mathlib

/-!
Verification development for the DocuScribe crawl/extract/aggregate engine
(`src/ai/flows/scrape-url-flow.ts`).  The definitions below are shallow
embeddings of the TypeScript source: strings are `List Char` where character
level reasoning is needed, JavaScript `Set` objects become `Finset` or
duplicate-free lists, and the crawl loop becomes an explicit step function on
a state record.  External collaborators (the network, the turndown library,
the AI summarizer) are parameters of the embedded functions.
-/

namespace DocuScribe

/-! ## Whitespace tokenization (JS `str.split(/\s+/).filter(Boolean)`)

The word-span index of `scrapeUrlFlow` counts words with
`p.section.split(/\s+/).filter(Boolean).length`.  We embed that tokenizer:
maximal runs of non-whitespace characters, in order.  `wsChar` covers the
core characters matched by the JavaScript `\s` class. -/

def wsChar (c : Char) : Bool :=
  c = ' ' || c = '\t' || c = '\n' || c = '\r' || c = '\x0b' || c = '\x0c' || c = '\u00A0'

/-- Flush a reversed accumulator of word characters into zero or one tokens. -/
def tokFlush (acc : List Char) : List (List Char) :=
  if acc = [] then [] else [acc.reverse]

/-- Accumulator pass of the whitespace tokenizer. -/
def tokAux (acc : List Char) : List Char → List (List Char)
  | [] => tokFlush acc
  | c :: cs => if wsChar c then tokFlush acc ++ tokAux [] cs else tokAux (c :: acc) cs

/-- Tokenization of a string on whitespace, empty tokens dropped
(the JS idiom `s.split(/\s+/).filter(Boolean)`). -/
def tokenize (s : List Char) : List (List Char) := tokAux [] s

/-- Word count of a string, as computed at `scrape-url-flow.ts:377`. -/
def wordCount (s : List Char) : Nat := (tokenize s).length

/-! ## Section formatting and joining (`scrape-url-flow.ts:365-393`) -/

/-- Formatted section for one page:
`## title\n\nURL: url\n\ncontent` (`scrape-url-flow.ts:368`). -/
def formatSection (title url content : List Char) : List Char :=
  ('#' :: '#' :: ' ' :: title) ++ ('\n' :: '\n' :: 'U' :: 'R' :: 'L' :: ':' :: ' ' :: url)
    ++ ('\n' :: '\n' :: content)

/-- Separator between sections: `'\n\n---\n\n'` (`scrape-url-flow.ts:371`). -/
def sepChars : List Char := ['\n', '\n', '-', '-', '-', '\n', '\n']

/-- Join of the section strings with the separator
(`pageSections.map(p => p.section).join(separator)`, line 392). -/
def joinSep : List (List Char) → List Char
  | [] => []
  | [s] => s
  | s :: t :: rest => s ++ sepChars ++ joinSep (t :: rest)

/-- Word cost of one separator: `const sepWordCost = 1` (line 374). -/
def sepWordCost : Nat := 1

/-- Span computation loop of `scrape-url-flow.ts:376-382`: `cum` is
`cumulativeWords`, `idx` the section index; each section contributes
`(start, end)` with `start = cum + idx * sepWordCost`. -/
def computeSpansAux (cum idx : Nat) : List (List Char) → List (Nat × Nat)
  | [] => []
  | s :: rest =>
      let wc := wordCount s
      let start := cum + idx * sepWordCost
      (start, start + wc) :: computeSpansAux (cum + wc) (idx + 1) rest

/-- Word spans of a list of sections (`spans` at `scrape-url-flow.ts:375`). -/
def computeSpans (ss : List (List Char)) : List (Nat × Nat) := computeSpansAux 0 0 ss

/-- Sum of the word counts of the first `n` sections. -/
def priorWords (ss : List (List Char)) (n : Nat) : Nat :=
  ((ss.take n).map wordCount).sum

/-! ### Tokenizer lemmas -/

theorem tokAux_append_ws (c : Char) (hc : wsChar c = true) :
    ∀ (a : List Char) (acc b : List Char),
      tokAux acc (a ++ c :: b) = tokAux acc a ++ tokAux [] b := by
  intro a
  induction a with
  | nil =>
      intro acc b
      simp [tokAux, hc]
  | cons x xs ih =>
      intro acc b
      by_cases hx : wsChar x = true
      · simp [tokAux, hx, ih]
      · simp [tokAux, hx, ih]

theorem tokenize_append_ws (c : Char) (hc : wsChar c = true) (a b : List Char) :
    tokenize (a ++ c :: b) = tokenize a ++ tokenize b :=
  tokAux_append_ws c hc a [] b

/-- Tokenizing across one separator splits into the left tokens, the single
token `---`, and the right tokens. -/
theorem tokenize_sep (a b : List Char) :
    tokenize (a ++ sepChars ++ b) = tokenize a ++ [['-', '-', '-']] ++ tokenize b := by
  have h1 : a ++ sepChars ++ b = a ++ '\n' :: (['\n', '-', '-', '-', '\n', '\n'] ++ b) := by
    simp [sepChars]
  rw [h1, tokenize_append_ws '\n' (by decide)]
  have h2 : (['\n', '-', '-', '-', '\n', '\n'] ++ b)
      = [] ++ '\n' :: (['-', '-', '-', '\n', '\n'] ++ b) := by simp
  rw [h2, tokenize_append_ws '\n' (by decide)]
  have h3 : (['-', '-', '-', '\n', '\n'] ++ b)
      = ['-', '-', '-'] ++ '\n' :: ('\n' :: b) := by simp
  rw [h3, tokenize_append_ws '\n' (by decide)]
  have h4 : ('\n' :: b) = [] ++ '\n' :: b := by simp
  rw [h4, tokenize_append_ws '\n' (by decide)]
  have hd : wsChar '-' = false := by decide
  simp [tokenize, tokAux, tokFlush, hd]

theorem computeSpansAux_length (ss : List (List Char)) :
    ∀ cum idx, (computeSpansAux cum idx ss).length = ss.length := by
  induction ss with
  | nil => intro cum idx; rfl
  | cons s rest ih => intro cum idx; simp [computeSpansAux, ih]

theorem computeSpans_length (ss : List (List Char)) :
    (computeSpans ss).length = ss.length := computeSpansAux_length ss 0 0

theorem priorWords_cons (s : List Char) (rest : List (List Char)) (n : Nat) :
    priorWords (s :: rest) (n + 1) = wordCount s + priorWords rest n := by
  simp [priorWords, List.take_succ_cons]

theorem computeSpansAux_getElem (ss : List (List Char)) :
    ∀ cum idx n (h : n < ss.length) (h2 : n < (computeSpansAux cum idx ss).length),
      (computeSpansAux cum idx ss)[n] =
        (cum + priorWords ss n + (idx + n) * sepWordCost,
         cum + priorWords ss n + (idx + n) * sepWordCost + wordCount ss[n]) := by
  induction ss with
  | nil => intro cum idx n h h2; simp at h
  | cons s rest ih =>
      intro cum idx n h h2
      cases n with
      | zero => simp [computeSpansAux, priorWords]
      | succ m =>
          have hm : m < rest.length := by simpa using h
          have hm2 : m < (computeSpansAux (cum + wordCount s) (idx + 1) rest).length := by
            rw [computeSpansAux_length]; exact hm
          simp only [computeSpansAux, List.getElem_cons_succ]
          rw [ih (cum + wordCount s) (idx + 1) m hm hm2, priorWords_cons]
          simp only [Prod.mk.injEq, sepWordCost]
          constructor <;> ring

theorem drop_append_length {α : Type} (l₁ l₂ : List α) (k : Nat) :
    (l₁ ++ l₂).drop (l₁.length + k) = l₂.drop k := by
  induction l₁ with
  | nil => simp
  | cons x xs ih => simp [Nat.succ_add, ih]

/-- Slicing the token list of the joined body, dropping `priorWords + n` tokens
and taking the section's word count, recovers exactly the tokens of section `n`. -/
theorem tokenize_joinSep_slice (ss : List (List Char)) :
    ∀ n (h : n < ss.length),
      ((tokenize (joinSep ss)).drop (priorWords ss n + n)).take (wordCount ss[n])
        = tokenize ss[n] := by
  induction ss with
  | nil => intro n h; simp at h
  | cons s rest ih =>
      intro n h
      cases n with
      | zero =>
          cases rest with
          | nil =>
              simp [joinSep, priorWords, wordCount, List.take_length]
          | cons t rs =>
              have hj : joinSep (s :: t :: rs) = s ++ sepChars ++ joinSep (t :: rs) := rfl
              rw [hj, tokenize_sep]
              simp only [priorWords, List.take_zero, List.map_nil, List.sum_nil,
                Nat.add_zero, List.drop_zero, List.getElem_cons_zero, wordCount]
              rw [List.append_assoc]
              exact List.take_left (tokenize s) _
      | succ m =>
          cases rest with
          | nil => simp at h
          | cons t rs =>
              have hm : m < (t :: rs).length := by simpa using h
              have hj : joinSep (s :: t :: rs) = s ++ sepChars ++ joinSep (t :: rs) := rfl
              rw [hj, tokenize_sep, priorWords_cons]
              have harith : wordCount s + priorWords (t :: rs) m + (m + 1)
                  = (tokenize s).length + (1 + (priorWords (t :: rs) m + m)) := by
                simp [wordCount]; ring
              rw [harith, List.append_assoc, drop_append_length]
              have h1 : ([['-', '-', '-']] ++ tokenize (joinSep (t :: rs))).drop
                  (1 + (priorWords (t :: rs) m + m))
                  = (tokenize (joinSep (t :: rs))).drop (priorWords (t :: rs) m + m) := by
                have : (1 : Nat) + (priorWords (t :: rs) m + m)
                    = ([['-', '-', '-']] : List (List Char)).length
                      + (priorWords (t :: rs) m + m) := by simp
                rw [this, drop_append_length]
              rw [h1]
              simpa using ih m hm

/-- Formatted sections of a list of crawled pages `(title, url, content)`
(`pageSections` at `scrape-url-flow.ts:365-369`). -/
def sectionsOf (pages : List (List Char × List Char × List Char)) : List (List Char) :=
  pages.map (fun p => formatSection p.1 p.2.1 p.2.2)

/-- C1: for every non-empty list of successfully crawled pages, entry `n` of the
word-span index starts at the sum of the word counts of all prior formatted
sections plus one separator token per prior boundary, ends at start plus the
section's own word count, and slicing the whitespace token list of the joined
body by `[startWord, endWord)` reproduces exactly the token sequence of the
formatted section for page `n`. -/
theorem c1_index_round_trip
    (pages : List (List Char × List Char × List Char))
    (hne : pages ≠ [])
    (n : Nat)
    (h : n < (sectionsOf pages).length)
    (h2 : n < (computeSpans (sectionsOf pages)).length) :
    (computeSpans (sectionsOf pages))[n]
        = (priorWords (sectionsOf pages) n + n,
           priorWords (sectionsOf pages) n + n + wordCount (sectionsOf pages)[n]) ∧
    ((tokenize (joinSep (sectionsOf pages))).drop (priorWords (sectionsOf pages) n + n)).take
        (wordCount (sectionsOf pages)[n])
      = tokenize (sectionsOf pages)[n] := by
  refine ⟨?_, tokenize_joinSep_slice _ n h⟩
  have hg := computeSpansAux_getElem (sectionsOf pages) 0 0 n h h2
  simpa [computeSpans, sepWordCost] using hg

/-- Concrete two-page input used to witness `c1_index_round_trip`. -/
def c1Pages : List (List Char × List Char × List Char) :=
  [(['T'], ['u'], ['a', ' ', 'b']), (['S'], ['v'], ['c'])]

theorem c1_index_round_trip_witness :
    ((tokenize (joinSep (sectionsOf c1Pages))).drop
        (priorWords (sectionsOf c1Pages) 1 + 1)).take
        (wordCount ((sectionsOf c1Pages).get ⟨1, by decide⟩))
      = tokenize ((sectionsOf c1Pages).get ⟨1, by decide⟩) :=
  (c1_index_round_trip c1Pages (by decide) 1 (by decide) (by decide)).2

/-! ## The crawl loop (`scrapeUrlFlow`, `scrape-url-flow.ts:308-348`)

URLs and page contents are plain strings.  The network is abstracted as a
function `fetchRes : String → FetchResult` embedding `fetchAndProcessUrl`'s
observable outcome, and the successor detector as
`succ : String → String → List String` (base URL, raw HTML).  The state
carries two instrumentation logs that do not influence control flow:
`fetched` records every invocation of `fetchAndProcessUrl` and `succCalls`
every invocation of `findSuccessorPages`. -/

/-- JavaScript truthiness of an optional string (`undefined` and `''` are
falsy). -/
def truthyOpt (o : Option String) : Bool :=
  match o with
  | none => false
  | some s => s ≠ ""

/-- Outcome of `fetchAndProcessUrl` (`scrape-url-flow.ts:141-143`). -/
inductive FetchResult where
  | success (title content html : String) (image : Option String)
  | failure (reason : String)
deriving DecidableEq

/-- One entry of `results` (`scrape-url-flow.ts:334`). -/
structure PageRec where
  url : String
  title : String
  content : String
deriving DecidableEq

/-- State of the crawl loop: `urlQueue`, `attemptedUrls`, `visitedUrls`,
`results`, `coverImage` and the failure log, plus the two instrumentation
logs. -/
structure CrawlState where
  queue : List String
  attempted : Finset String
  visited : Finset String
  visitedList : List String
  results : List PageRec
  coverImage : Option String
  failures : List (String × String)
  fetched : List String
  succCalls : List String
deriving DecidableEq

/-- Initial state (`scrape-url-flow.ts:309-315`). -/
def initState (startUrl : String) : CrawlState :=
  ⟨[startUrl], ∅, ∅, [], [], none, [], [], []⟩

/-- Successor enqueueing (`scrape-url-flow.ts:338-342`): push each link not
already attempted and not already queued. -/
def enqueueLinks (att : Finset String) (q : List String) (links : List String) :
    List String :=
  links.foldl (fun q l => if l ∈ att ∨ l ∈ q then q else q ++ [l]) q

/-- Bookkeeping on a successful fetch (`scrape-url-flow.ts:329-334`): record
the visit, capture the first truthy image as cover, and push a `PageRec` when
the content is truthy (non-empty). -/
def visitUpdate (u title content : String) (image : Option String)
    (s1 : CrawlState) : CrawlState :=
  { s1 with
    visited := insert u s1.visited,
    visitedList := s1.visitedList ++ [u],
    coverImage :=
      if truthyOpt s1.coverImage = false ∧ truthyOpt image = true then image
      else s1.coverImage,
    results :=
      if content ≠ "" then s1.results ++ [⟨u, title, content⟩] else s1.results }

theorem visitUpdate_queue (u t c : String) (img : Option String) (s1 : CrawlState) :
    (visitUpdate u t c img s1).queue = s1.queue := rfl

theorem visitUpdate_attempted (u t c : String) (img : Option String) (s1 : CrawlState) :
    (visitUpdate u t c img s1).attempted = s1.attempted := rfl

theorem visitUpdate_visited (u t c : String) (img : Option String) (s1 : CrawlState) :
    (visitUpdate u t c img s1).visited = insert u s1.visited := rfl

theorem visitUpdate_visitedList (u t c : String) (img : Option String) (s1 : CrawlState) :
    (visitUpdate u t c img s1).visitedList = s1.visitedList ++ [u] := rfl

theorem visitUpdate_results (u t c : String) (img : Option String) (s1 : CrawlState) :
    (visitUpdate u t c img s1).results
      = if c ≠ "" then s1.results ++ [⟨u, t, c⟩] else s1.results := rfl

theorem visitUpdate_fetched (u t c : String) (img : Option String) (s1 : CrawlState) :
    (visitUpdate u t c img s1).fetched = s1.fetched := rfl

theorem visitUpdate_succCalls (u t c : String) (img : Option String) (s1 : CrawlState) :
    (visitUpdate u t c img s1).succCalls = s1.succCalls := rfl

/-- Success branch of the loop body (`scrape-url-flow.ts:328-343`): apply the
visit bookkeeping, then—only while under the cap—run the successor detector
and enqueue its results. -/
def processSuccess (succ : String → String → List String) (maxPages : Nat)
    (u title content html : String) (image : Option String) (s1 : CrawlState) :
    CrawlState :=
  if (visitUpdate u title content image s1).visited.card < maxPages then
    { visitUpdate u title content image s1 with
      succCalls := (visitUpdate u title content image s1).succCalls ++ [u],
      queue := enqueueLinks (visitUpdate u title content image s1).attempted
        (visitUpdate u title content image s1).queue (succ u html) }
  else visitUpdate u title content image s1

/-- One iteration of the `while` loop (`scrape-url-flow.ts:319-348`).
`none` means the loop guard `urlQueue.length > 0 && visitedUrls.size <
maxPages` failed and the loop exits. -/
def crawlStep (fetchRes : String → FetchResult)
    (succ : String → String → List String) (maxPages : Nat) (s : CrawlState) :
    Option CrawlState :=
  if s.queue = [] ∨ maxPages ≤ s.visited.card then none
  else
    match s.queue with
    | [] => none
    | u :: rest =>
      if u = "" ∨ u ∈ s.attempted then some { s with queue := rest }
      else
        let s1 : CrawlState :=
          { s with
            queue := rest,
            attempted := insert u s.attempted,
            fetched := s.fetched ++ [u] }
        match fetchRes u with
        | .success title content html image =>
            some (processSuccess succ maxPages u title content html image s1)
        | .failure reason =>
            some { s1 with failures := s1.failures ++ [(u, reason)] }

/-- Fuelled iteration of `crawlStep`; the loop stops by itself when the guard
fails, fuel only bounds the number of iterations considered. -/
def crawlRun (fetchRes : String → FetchResult)
    (succ : String → String → List String) (maxPages : Nat) :
    Nat → CrawlState → CrawlState
  | 0, s => s
  | fuel + 1, s =>
    match crawlStep fetchRes succ maxPages s with
    | none => s
    | some s2 => crawlRun fetchRes succ maxPages fuel s2

/-- PageRec recorded for a visited URL, if any: the loop pushes
`(url, title, content)` exactly when the fetch succeeded with non-empty
content. -/
def recordOf (fetchRes : String → FetchResult) (u : String) : Option PageRec :=
  match fetchRes u with
  | .success t c _ _ => if c ≠ "" then some ⟨u, t, c⟩ else none
  | .failure _ => none

/-- Loop invariant tying all components of the crawl state together. -/
structure CrawlInv (fetchRes : String → FetchResult) (maxPages : Nat)
    (s : CrawlState) : Prop where
  visited_subset : s.visited ⊆ s.attempted
  visited_le : s.visited.card ≤ maxPages
  queue_nodup : s.queue.Nodup
  queue_fresh : ∀ u ∈ s.queue, u ∉ s.attempted
  fetched_nodup : s.fetched.Nodup
  attempted_eq : s.attempted = s.fetched.toFinset
  visitedList_nodup : s.visitedList.Nodup
  visited_eq : s.visited = s.visitedList.toFinset
  results_eq : s.results = s.visitedList.filterMap (recordOf fetchRes)

theorem crawlInv_init (fetchRes : String → FetchResult) (maxPages : Nat)
    (startUrl : String) : CrawlInv fetchRes maxPages (initState startUrl) := by
  constructor <;> simp [initState]

theorem enqueueLinks_nodup_fresh (att : Finset String) :
    ∀ (links q : List String), q.Nodup → (∀ v ∈ q, v ∉ att) →
      (enqueueLinks att q links).Nodup ∧ ∀ v ∈ enqueueLinks att q links, v ∉ att := by
  intro links
  induction links with
  | nil => intro q hq hf; exact ⟨hq, hf⟩
  | cons l ls ih =>
      intro q hq hf
      by_cases hc : l ∈ att ∨ l ∈ q
      · have : enqueueLinks att q (l :: ls) = enqueueLinks att q ls := by
          simp [enqueueLinks, List.foldl_cons, hc]
        rw [this]; exact ih q hq hf
      · push_neg at hc
        have hstep : enqueueLinks att q (l :: ls) = enqueueLinks att (q ++ [l]) ls := by
          simp [enqueueLinks, List.foldl_cons, hc.1, hc.2]
        rw [hstep]
        refine ih (q ++ [l]) ?_ ?_
        · simp [List.nodup_append, hq, hc.2]
        · intro v hv
          rcases List.mem_append.mp hv with h1 | h1
          · exact hf v h1
          · simp at h1; subst h1; exact hc.1

theorem crawlInv_processSuccess
    (fetchRes : String → FetchResult) (succ : String → String → List String)
    (maxPages : Nat) (u t c hh : String) (img : Option String)
    (s : CrawlState) (rest : List String)
    (hinv : CrawlInv fetchRes maxPages s)
    (hq : s.queue = u :: rest)
    (hfresh : u ∉ s.attempted)
    (hcard : s.visited.card < maxPages)
    (hfr : fetchRes u = .success t c hh img) :
    CrawlInv fetchRes maxPages
      (processSuccess succ maxPages u t c hh img
        { s with
          queue := rest,
          attempted := insert u s.attempted,
          fetched := s.fetched ++ [u] }) := by
  have hrest_nodup : rest.Nodup := by
    have := hinv.queue_nodup; rw [hq] at this; exact this.of_cons
  have hu_rest : u ∉ rest := by
    have := hinv.queue_nodup; rw [hq] at this
    exact (List.nodup_cons.mp this).1
  have hrest_fresh : ∀ v ∈ rest, v ∉ insert u s.attempted := by
    intro v hv
    have hvq : v ∈ s.queue := by rw [hq]; exact List.mem_cons_of_mem _ hv
    have hvA : v ∉ s.attempted := hinv.queue_fresh v hvq
    have hvu : v ≠ u := fun e => hu_rest (e ▸ hv)
    simp [Finset.mem_insert, hvu, hvA]
  have hu_fetched : u ∉ s.fetched := by
    intro hmem
    exact hfresh (hinv.attempted_eq ▸ List.mem_toFinset.mpr hmem)
  have hu_visList : u ∉ s.visitedList := by
    intro hmem
    have : u ∈ s.visited := hinv.visited_eq ▸ List.mem_toFinset.mpr hmem
    exact hfresh (hinv.visited_subset this)
  have hAeq : insert u s.attempted = (s.fetched ++ [u]).toFinset := by
    rw [hinv.attempted_eq]
    simp [List.toFinset_append, Finset.insert_eq, Finset.union_comm]
  have hVeq : insert u s.visited = (s.visitedList ++ [u]).toFinset := by
    rw [hinv.visited_eq]
    simp [List.toFinset_append, Finset.insert_eq, Finset.union_comm]
  have hcard2 : (insert u s.visited).card ≤ maxPages := by
    calc (insert u s.visited).card ≤ s.visited.card + 1 := Finset.card_insert_le _ _
    _ ≤ maxPages := hcard
  have hsubset : insert u s.visited ⊆ insert u s.attempted :=
    Finset.insert_subset_insert _ hinv.visited_subset
  have hRes : (if c ≠ "" then s.results ++ [⟨u, t, c⟩] else s.results)
      = (s.visitedList ++ [u]).filterMap (recordOf fetchRes) := by
    rw [List.filterMap_append, ← hinv.results_eq]
    by_cases hc : c = ""
    · simp [hc, recordOf, hfr]
    · simp [hc, recordOf, hfr]
  unfold processSuccess
  split
  · constructor
    · exact hsubset
    · exact hcard2
    · exact (enqueueLinks_nodup_fresh _ _ _ hrest_nodup hrest_fresh).1
    · exact (enqueueLinks_nodup_fresh _ _ _ hrest_nodup hrest_fresh).2
    · simp only [visitUpdate_fetched]
      simp [List.nodup_append, hinv.fetched_nodup, hu_fetched]
    · exact hAeq
    · simp only [visitUpdate_visitedList]
      simp [List.nodup_append, hinv.visitedList_nodup, hu_visList]
    · exact hVeq
    · exact hRes
  · constructor
    · exact hsubset
    · exact hcard2
    · exact hrest_nodup
    · exact hrest_fresh
    · simp only [visitUpdate_fetched]
      simp [List.nodup_append, hinv.fetched_nodup, hu_fetched]
    · exact hAeq
    · simp only [visitUpdate_visitedList]
      simp [List.nodup_append, hinv.visitedList_nodup, hu_visList]
    · exact hVeq
    · exact hRes

theorem crawlInv_step (fetchRes : String → FetchResult)
    (succ : String → String → List String) (maxPages : Nat)
    (s s2 : CrawlState)
    (hinv : CrawlInv fetchRes maxPages s)
    (hstep : crawlStep fetchRes succ maxPages s = some s2) :
    CrawlInv fetchRes maxPages s2 := by
  rw [crawlStep] at hstep
  split at hstep
  · exact absurd hstep (by simp)
  · rename_i hguard
    push_neg at hguard
    obtain ⟨hqne, hcard⟩ := hguard
    split at hstep
    · exact absurd hstep (by simp)
    · rename_i u rest hq
      split at hstep
      · rename_i hskip
        cases hstep
        constructor
        · exact hinv.visited_subset
        · exact hinv.visited_le
        · have := hinv.queue_nodup; rw [hq] at this; exact this.of_cons
        · intro v hv
          exact hinv.queue_fresh v (by rw [hq]; exact List.mem_cons_of_mem _ hv)
        · exact hinv.fetched_nodup
        · exact hinv.attempted_eq
        · exact hinv.visitedList_nodup
        · exact hinv.visited_eq
        · exact hinv.results_eq
      · rename_i hfresh0
        push_neg at hfresh0
        obtain ⟨-, hfresh⟩ := hfresh0
        have hlt : s.visited.card < maxPages := hcard
        split at hstep
        · rename_i t c hh img hfr
          cases hstep
          exact crawlInv_processSuccess fetchRes succ maxPages u t c hh img s rest
            hinv hq hfresh hlt hfr
        · rename_i reason hfr
          cases hstep
          have hrest_nodup : rest.Nodup := by
            have := hinv.queue_nodup; rw [hq] at this; exact this.of_cons
          have hu_rest : u ∉ rest := by
            have := hinv.queue_nodup; rw [hq] at this
            exact (List.nodup_cons.mp this).1
          have hu_fetched : u ∉ s.fetched := by
            intro hmem
            exact hfresh (hinv.attempted_eq ▸ List.mem_toFinset.mpr hmem)
          constructor
          · exact hinv.visited_subset.trans (Finset.subset_insert _ _)
          · exact hinv.visited_le
          · exact hrest_nodup
          · intro v hv
            have hvq : v ∈ s.queue := by rw [hq]; exact List.mem_cons_of_mem _ hv
            have hvA : v ∉ s.attempted := hinv.queue_fresh v hvq
            have hvu : v ≠ u := fun e => hu_rest (e ▸ hv)
            simp [Finset.mem_insert, hvu, hvA]
          · simp [List.nodup_append, hinv.fetched_nodup, hu_fetched]
          · rw [hinv.attempted_eq]
            simp [List.toFinset_append, Finset.insert_eq, Finset.union_comm]
          · exact hinv.visitedList_nodup
          · exact hinv.visited_eq
          · exact hinv.results_eq

theorem crawlInv_run (fetchRes : String → FetchResult)
    (succ : String → String → List String) (maxPages : Nat) :
    ∀ (fuel : Nat) (s : CrawlState), CrawlInv fetchRes maxPages s →
      CrawlInv fetchRes maxPages (crawlRun fetchRes succ maxPages fuel s) := by
  intro fuel
  induction fuel with
  | zero => intro s hs; exact hs
  | succ n ih =>
      intro s hs
      rw [crawlRun]
      cases hstep : crawlStep fetchRes succ maxPages s with
      | none => exact hs
      | some s2 => exact ih s2 (crawlInv_step fetchRes succ maxPages s s2 hs hstep)

/-- Exit characterization of the loop guard: under the invariant, an
iteration refuses to run exactly when the visit count has reached the cap or
the queue is empty. -/
theorem crawlStep_none_iff (fetchRes : String → FetchResult)
    (succ : String → String → List String) (maxPages : Nat) (s : CrawlState)
    (hle : s.visited.card ≤ maxPages) :
    crawlStep fetchRes succ maxPages s = none ↔
      (s.visited.card = maxPages ∨ s.queue = []) := by
  rw [crawlStep]
  split
  · rename_i hguard
    simp only [true_iff]
    rcases hguard with hq | hc
    · exact Or.inr hq
    · exact Or.inl (le_antisymm hle hc)
  · rename_i hguard
    push_neg at hguard
    constructor
    · intro hnone
      exfalso
      rcases hqs : s.queue with _ | ⟨u, rest⟩
      · exact hguard.1 hqs
      · rw [hqs] at hnone
        by_cases hskip : u = "" ∨ u ∈ s.attempted
        · simp [hskip] at hnone
        · rcases hfr : fetchRes u with _ | _ <;> simp [hskip, hfr] at hnone
    · intro hc
      rcases hc with hc | hc
      · exact absurd (hc ▸ le_refl _) (not_le_of_lt hguard.2)
      · exact absurd hc hguard.1

/-- C2: at every point of every crawl execution the number of visited URLs is
at most `maxPages` and every visited URL has been attempted, and the loop
terminates exactly when the visited count reaches `maxPages` or the queue is
empty. -/
theorem c2_crawl_invariants (fetchRes : String → FetchResult)
    (succ : String → String → List String) (maxPages : Nat) (startUrl : String)
    (fuel : Nat) :
    (crawlRun fetchRes succ maxPages fuel (initState startUrl)).visited.card ≤ maxPages ∧
    (crawlRun fetchRes succ maxPages fuel (initState startUrl)).visited ⊆
      (crawlRun fetchRes succ maxPages fuel (initState startUrl)).attempted ∧
    (crawlStep fetchRes succ maxPages
        (crawlRun fetchRes succ maxPages fuel (initState startUrl)) = none ↔
      ((crawlRun fetchRes succ maxPages fuel (initState startUrl)).visited.card = maxPages ∨
       (crawlRun fetchRes succ maxPages fuel (initState startUrl)).queue = [])) := by
  have hinv := crawlInv_run fetchRes succ maxPages fuel (initState startUrl)
    (crawlInv_init fetchRes maxPages startUrl)
  exact ⟨hinv.visited_le, hinv.visited_subset,
    crawlStep_none_iff fetchRes succ maxPages _ hinv.visited_le⟩

/-- C3: within one crawl no URL is ever fetched twice—the log of
`fetchAndProcessUrl` invocations is duplicate-free, the attempted set is
exactly the set of fetched URLs (so each fetching iteration grows it by
exactly one), and no queued URL is already attempted. -/
theorem c3_fetch_at_most_once (fetchRes : String → FetchResult)
    (succ : String → String → List String) (maxPages : Nat) (startUrl : String)
    (fuel : Nat) :
    (crawlRun fetchRes succ maxPages fuel (initState startUrl)).fetched.Nodup ∧
    (crawlRun fetchRes succ maxPages fuel (initState startUrl)).attempted =
      (crawlRun fetchRes succ maxPages fuel (initState startUrl)).fetched.toFinset ∧
    (crawlRun fetchRes succ maxPages fuel (initState startUrl)).fetched.length =
      (crawlRun fetchRes succ maxPages fuel (initState startUrl)).attempted.card ∧
    (crawlRun fetchRes succ maxPages fuel (initState startUrl)).queue.Nodup ∧
    (∀ u ∈ (crawlRun fetchRes succ maxPages fuel (initState startUrl)).queue,
      u ∉ (crawlRun fetchRes succ maxPages fuel (initState startUrl)).attempted) := by
  have hinv := crawlInv_run fetchRes succ maxPages fuel (initState startUrl)
    (crawlInv_init fetchRes maxPages startUrl)
  refine ⟨hinv.fetched_nodup, hinv.attempted_eq, ?_, hinv.queue_nodup, hinv.queue_fresh⟩
  rw [hinv.attempted_eq, List.card_toFinset,
    List.dedup_eq_self.mpr hinv.fetched_nodup]

/-- Once the loop guard fails, running any amount of fuel changes nothing. -/
theorem crawlRun_of_step_none (fetchRes : String → FetchResult)
    (succ : String → String → List String) (maxPages : Nat) (fuel : Nat)
    (s : CrawlState) (h : crawlStep fetchRes succ maxPages s = none) :
    crawlRun fetchRes succ maxPages fuel s = s := by
  cases fuel with
  | zero => rfl
  | succ n => rw [crawlRun, h]

/-- C9 (amended): the crawl produces exactly one `PageRec` per successfully
processed page whose extracted content is non-empty, in visitation order;
consequently the record count is at most `|visited|` (equality can fail when
a success yields empty content). -/
theorem c9_records_per_visit (fetchRes : String → FetchResult)
    (succ : String → String → List String) (maxPages : Nat) (startUrl : String)
    (fuel : Nat) :
    (crawlRun fetchRes succ maxPages fuel (initState startUrl)).results =
      (crawlRun fetchRes succ maxPages fuel (initState startUrl)).visitedList.filterMap
        (recordOf fetchRes) ∧
    (crawlRun fetchRes succ maxPages fuel (initState startUrl)).visitedList.Nodup ∧
    (crawlRun fetchRes succ maxPages fuel (initState startUrl)).visited =
      (crawlRun fetchRes succ maxPages fuel (initState startUrl)).visitedList.toFinset ∧
    (crawlRun fetchRes succ maxPages fuel (initState startUrl)).results.length ≤
      (crawlRun fetchRes succ maxPages fuel (initState startUrl)).visited.card := by
  have hinv := crawlInv_run fetchRes succ maxPages fuel (initState startUrl)
    (crawlInv_init fetchRes maxPages startUrl)
  refine ⟨hinv.results_eq, hinv.visitedList_nodup, hinv.visited_eq, ?_⟩
  rw [hinv.results_eq, hinv.visited_eq, List.card_toFinset,
    List.dedup_eq_self.mpr hinv.visitedList_nodup]
  exact List.length_filterMap_le _ _

/-- Fetch oracle whose pages succeed with empty extracted content. -/
def c9Fetch : String → FetchResult := fun _ => .success "T" "" "h" none

/-- Successor oracle returning no links. -/
def c9Succ : String → String → List String := fun _ _ => []

/-- C9 counterexample: a page that fetches successfully but converts to empty
markdown is added to `visited` without pushing a `PageRec`
(`if (content) results.push(...)`, line 334), so the number of PageRecords
differs from `|visited|`. -/
theorem c9_counterexample :
    (crawlRun c9Fetch c9Succ 1 2 (initState "a")).results.length ≠
      (crawlRun c9Fetch c9Succ 1 2 (initState "a")).visited.card := by
  decide

/-- C6 (amended): with `maxPages = 1`, a start URL that fetches successfully
with non-empty content yields exactly one `PageRec`, and the successor
detector is never invoked (and nothing beyond the start URL is ever queued),
because the `visitedUrls.size < maxPages` check precedes successor discovery. -/
theorem c6_single_page_no_successors (fetchRes : String → FetchResult)
    (succ : String → String → List String) (startUrl t c hh : String)
    (img : Option String) (fuel : Nat)
    (hne : startUrl ≠ "")
    (hfr : fetchRes startUrl = .success t c hh img)
    (hc : c ≠ "") :
    (crawlRun fetchRes succ 1 (fuel + 1) (initState startUrl)).results
        = [⟨startUrl, t, c⟩] ∧
    (crawlRun fetchRes succ 1 (fuel + 1) (initState startUrl)).succCalls = [] ∧
    (crawlRun fetchRes succ 1 (fuel + 1) (initState startUrl)).visited.card = 1 ∧
    (crawlRun fetchRes succ 1 (fuel + 1) (initState startUrl)).queue = [] := by
  have h1 : crawlStep fetchRes succ 1 (initState startUrl)
      = some (processSuccess succ 1 startUrl t c hh img
          ⟨[], insert startUrl ∅, ∅, [], [], none, [], [startUrl], []⟩) := by
    rw [crawlStep]
    rw [if_neg (by simp [initState])]
    simp only [initState]
    rw [if_neg (by simp [hne]), hfr]
    simp
  have h2 : processSuccess succ 1 startUrl t c hh img
        ⟨[], insert startUrl ∅, ∅, [], [], none, [], [startUrl], []⟩
      = ⟨[], insert startUrl ∅, insert startUrl ∅, [startUrl], [⟨startUrl, t, c⟩],
         (if truthyOpt img = true then img else none), [], [startUrl], []⟩ := by
    rw [processSuccess]
    rw [if_neg (by simp [visitUpdate])]
    simp [visitUpdate, hc, truthyOpt]
  have h3 : crawlStep fetchRes succ 1
      (⟨[], insert startUrl ∅, insert startUrl ∅, [startUrl], [⟨startUrl, t, c⟩],
        (if truthyOpt img = true then img else none), [], [startUrl], []⟩ : CrawlState)
      = none := by
    rw [crawlStep]
    rw [if_pos (by simp)]
  have hrun : crawlRun fetchRes succ 1 (fuel + 1) (initState startUrl)
      = ⟨[], insert startUrl ∅, insert startUrl ∅, [startUrl], [⟨startUrl, t, c⟩],
         (if truthyOpt img = true then img else none), [], [startUrl], []⟩ := by
    rw [crawlRun, h1, h2]
    exact crawlRun_of_step_none fetchRes succ 1 fuel _ h3
  rw [hrun]
  refine ⟨rfl, rfl, ?_, rfl⟩
  simp

/-- Fetch oracle for the C6 witness. -/
def c6Fetch : String → FetchResult := fun _ => .success "T" "c" "h" none

/-- Successor oracle for the C6 witness. -/
def c6Succ : String → String → List String := fun _ _ => []

theorem c6_single_page_no_successors_witness :
    (crawlRun c6Fetch c6Succ 1 1 (initState "a")).results = [⟨"a", "T", "c"⟩] ∧
    (crawlRun c6Fetch c6Succ 1 1 (initState "a")).succCalls = [] ∧
    (crawlRun c6Fetch c6Succ 1 1 (initState "a")).visited.card = 1 ∧
    (crawlRun c6Fetch c6Succ 1 1 (initState "a")).queue = [] :=
  c6_single_page_no_successors c6Fetch c6Succ "a" "T" "c" "h" none 0
    (by decide) rfl (by decide)

/-- Fetch oracle whose single page succeeds with empty content. -/
def c6EmptyFetch : String → FetchResult := fun _ => .success "T" "" "h" none

/-- Successor oracle for the C6 counterexample. -/
def c6EmptySucc : String → String → List String := fun _ _ => []

/-- C6 counterexample: a `maxPages = 1` crawl whose start URL fetches and
extracts successfully can still produce zero page records (not exactly one)
when the converted content is the empty string. -/
theorem c6_counterexample :
    c6EmptyFetch "b" = .success "T" "" "h" none ∧
    (crawlRun c6EmptyFetch c6EmptySucc 1 2 (initState "b")).results.length = 0 ∧
    (crawlRun c6EmptyFetch c6EmptySucc 1 2 (initState "b")).visited.card = 1 :=
  ⟨rfl, by decide, by decide⟩

/-! ## Successor detection (`findSuccessorPages`, `scrape-url-flow.ts:43-137`)

URLs are modelled structurally: the platform's WHATWG parser
(`new URL(href, baseUrl)`) is embedded by giving each anchor an
already-resolved target, either absolute or relative to the base origin.
`serializeUrl` plays the role of `URL.href`; the raw `baseUrl` string handed
to the tool is the serialization of its parts.  An anchor's `href := none`
stands for a missing (or empty, hence falsy) `href` attribute. -/

/-- Parts of a URL as exposed by the platform `URL` object. -/
structure UrlParts where
  origin : String
  path : String
  search : String
  hash : String
deriving DecidableEq

/-- Serialization (`URL.href`): origin, path, query, fragment. -/
def serializeUrl (u : UrlParts) : String := u.origin ++ u.path ++ u.search ++ u.hash

/-- Resolved target of an anchor: absolute, or relative to the base origin. -/
inductive Href where
  | abs (u : UrlParts)
  | rel (path search hash : String)
deriving DecidableEq

/-- Resolution of an anchor target against the base URL
(`new URL(href, baseUrl)`). -/
def resolveHref (base : UrlParts) : Href → UrlParts
  | .abs u => u
  | .rel p q h => ⟨base.origin, p, q, h⟩

/-- One anchor element as the detector observes it: target, attributes,
text content, and whether it sits inside one of the navigation containers
`nav, #site-nav, .site-nav, #sidebar, .sidebar`. -/
structure Anchor where
  href : Option Href
  hreflang : Option String
  text : String
  rel : Option String
  classAttr : String
  ariaLabel : Option String
  inNav : Bool
deriving DecidableEq

/-- Boolean prefix test on character lists. -/
def isPrefOf : List Char → List Char → Bool
  | [], _ => true
  | _ :: _, [] => false
  | c :: cs, d :: ds => c = d && isPrefOf cs ds

/-- Boolean substring test: does `l` contain `pat`? -/
def hasSub (pat : List Char) : List Char → Bool
  | [] => pat.isEmpty
  | c :: cs => isPrefOf pat (c :: cs) || hasSub pat cs

/-- ASCII-style lower casing of a character list. -/
def toLowerStr (l : List Char) : List Char := l.map Char.toLower

/-- Whitespace trim on both ends (JS `String.prototype.trim`). -/
def trimWs (l : List Char) : List Char :=
  ((l.dropWhile wsChar).reverse.dropWhile wsChar).reverse

/-- Asset extensions of the filter regex
`/\.(pdf|zip|jpg|png|gif|css|js|ico|svg)$/i` (`scrape-url-flow.ts:71`). -/
def assetExts : List (List Char) :=
  [".pdf", ".zip", ".jpg", ".png", ".gif", ".css", ".js", ".ico", ".svg"].map
    String.toList

/-- Case-insensitive suffix test used for the asset check. -/
def endsWithCI (pat l : List Char) : Bool :=
  isPrefOf (toLowerStr pat).reverse (toLowerStr l).reverse

/-- Does the path end in a known asset extension? -/
def isAssetPath (path : String) : Bool :=
  assetExts.any (fun e => endsWithCI e path.toList)

/-- Candidate filter (`processCandidate`, `scrape-url-flow.ts:58-80`): reject
missing/empty or truthy-`hreflang` anchors; resolve, drop fragment and query
from the candidate, and reject self links (compared against the raw base
string), external origins, and asset paths. -/
def processCandidate (base : UrlParts) (a : Anchor) : Option String :=
  match a.href with
  | none => none
  | some h =>
    if truthyOpt a.hreflang then none
    else
      if serializeUrl { resolveHref base h with hash := "", search := "" }
            = serializeUrl base
          ∨ (resolveHref base h).origin ≠ base.origin
          ∨ isAssetPath (resolveHref base h).path = true then none
      else some (serializeUrl { resolveHref base h with hash := "", search := "" })

/-- The four high-confidence selectors (`scrape-url-flow.ts:82-85`), by
index: `a[rel="next"]`, `a.md-footer__link--next`, `a[class*="next"]`,
`a[aria-label*="next" i]`. -/
def matchesHighConf : Nat → Anchor → Bool
  | 0, a => a.rel = some "next"
  | 1, a => (tokenize a.classAttr.toList).contains "md-footer__link--next".toList
  | 2, a => hasSub "next".toList a.classAttr.toList
  | 3, a =>
    match a.ariaLabel with
    | none => false
    | some s => hasSub "next".toList (toLowerStr s.toList)
  | _ + 4, _ => false

/-- Exact anchor text `next` (`/^next$/i` on the trimmed text, line 93-96). -/
def isNextText (a : Anchor) : Bool :=
  toLowerStr (trimWs a.text.toList) = "next".toList

/-- Insertion into the `successorLinks` JS `Set`, preserving insertion
order. -/
def addLink (acc : List String) (l : String) : List String :=
  if l ∈ acc then acc else acc ++ [l]

/-- Fold one scan of the anchors: every anchor matching `P` has its
`processCandidate` result added to the accumulated set. -/
def scanAdd (base : UrlParts) (P : Anchor → Bool) (anchors : List Anchor)
    (acc : List String) : List String :=
  anchors.foldl (fun acc a =>
    if P a then
      match processCandidate base a with
      | some l => addLink acc l
      | none => acc
    else acc) acc

/-- Tier-1 pass: the four high-confidence selectors in order
(`scrape-url-flow.ts:86-91`). -/
def tier1Pass (base : UrlParts) (anchors : List Anchor) : List String :=
  (List.range 4).foldl (fun acc i => scanAdd base (matchesHighConf i) anchors acc) []

/-- Tiers 1 and 2 pooled: the exact-text scan (`scrape-url-flow.ts:94-100`)
runs unconditionally after the high-confidence selectors, adding into the
same set. -/
def tier12 (base : UrlParts) (anchors : List Anchor) : List String :=
  scanAdd base isNextText anchors (tier1Pass base anchors)

/-- Anchors inside the navigation containers, in document order. -/
def navAnchors (anchors : List Anchor) : List Anchor :=
  anchors.filter (fun a => a.inNav)

/-- Does this anchor resolve to the current page's path
(`scrape-url-flow.ts:117-122`)? -/
def matchesCurrentPath (base : UrlParts) (a : Anchor) : Bool :=
  match a.href with
  | none => false
  | some h => (resolveHref base h).path = base.path

/-- Tier-3 scan after the current page was found: the first anchor passing
the candidate filter is the successor and the scan stops
(`scrape-url-flow.ts:109-114`). -/
def tier3After (base : UrlParts) : List Anchor → List String
  | [] => []
  | a :: rest =>
    match processCandidate base a with
    | some l => [l]
    | none => tier3After base rest

/-- Tier-3 navigation-order inference (`scrape-url-flow.ts:102-127`): find
the anchor whose resolved path equals the current page's path, then take the
next anchor passing the filter. -/
def tier3 (base : UrlParts) : List Anchor → List String
  | [] => []
  | a :: rest =>
    if matchesCurrentPath base a then tier3After base rest
    else tier3 base rest

/-- Instrumented detector: result list plus whether tier 3 was consulted
(`if (successorLinks.size === 0)`, line 102). -/
def findSuccessorsI (base : UrlParts) (anchors : List Anchor) :
    List String × Bool :=
  if tier12 base anchors = [] then (tier3 base (navAnchors anchors), true)
  else (tier12 base anchors, false)

/-- Detector result (`Array.from(successorLinks)`, line 135). -/
def findSuccessors (base : UrlParts) (anchors : List Anchor) : List String :=
  (findSuccessorsI base anchors).1

/-- Base URL for the C4 scenario. -/
def c4Base : UrlParts := ⟨"https://a.com", "/p", "", ""⟩

/-- A page with a `rel="next"` anchor to `/b` (tier 1) and a plain anchor
with exact text `next` to `/c` (tier 2 only). -/
def c4Anchors : List Anchor :=
  [⟨some (Href.rel "/b" "" ""), none, "Go", some "next", "", none, false⟩,
   ⟨some (Href.rel "/c" "" ""), none, "next", none, "", none, false⟩]

/-- C4 counterexample: tier 1 yields a candidate, yet the exact-text tier-2
scan still contributes `/c` to the result—the code pools tiers 1 and 2
instead of short-circuiting after tier 1. -/
theorem c4_counterexample :
    tier1Pass c4Base c4Anchors = ["https://a.com/b"] ∧
    findSuccessors c4Base c4Anchors = ["https://a.com/b", "https://a.com/c"] := by
  decide

/-- C4 (amended): tiers 1 and 2 are pooled—the exact-text scan always runs
and can contribute candidates even when tier 1 matched—while tier 3
(navigation-order inference) is consulted exactly when tiers 1 and 2
produced no candidate. -/
theorem c4_tier_shortcircuit (base : UrlParts) (anchors : List Anchor) :
    ((findSuccessorsI base anchors).2 = true ↔ tier12 base anchors = []) ∧
    (tier12 base anchors ≠ [] →
      findSuccessors base anchors = tier12 base anchors) ∧
    (tier12 base anchors = [] →
      findSuccessors base anchors = tier3 base (navAnchors anchors)) := by
  by_cases h : tier12 base anchors = [] <;>
    simp [findSuccessors, findSuccessorsI, h]

theorem c4_tier_shortcircuit_witness :
    findSuccessors c4Base c4Anchors = tier12 c4Base c4Anchors :=
  (c4_tier_shortcircuit c4Base c4Anchors).2.1 (by decide)

theorem mem_addLink (acc : List String) (l v : String) (h : v ∈ addLink acc l) :
    v ∈ acc ∨ v = l := by
  unfold addLink at h
  split at h
  · exact Or.inl h
  · rcases List.mem_append.mp h with h1 | h1
    · exact Or.inl h1
    · simp at h1; exact Or.inr h1

theorem scanAdd_cons (base : UrlParts) (P : Anchor → Bool) (a : Anchor)
    (as : List Anchor) (acc : List String) :
    scanAdd base P (a :: as) acc
      = scanAdd base P as
          (if P a then
            match processCandidate base a with
            | some l => addLink acc l
            | none => acc
          else acc) := rfl

theorem mem_scanAdd (base : UrlParts) (P : Anchor → Bool) :
    ∀ (anchors : List Anchor) (acc : List String) (v : String),
      v ∈ scanAdd base P anchors acc →
      v ∈ acc ∨ ∃ a, a ∈ anchors ∧ processCandidate base a = some v := by
  intro anchors
  induction anchors with
  | nil => intro acc v h; exact Or.inl h
  | cons a as ih =>
      intro acc v h
      rw [scanAdd_cons] at h
      rcases ih _ v h with h1 | ⟨b, hb, hpc⟩
      · by_cases hp : P a = true
        · rw [if_pos hp] at h1
          rcases hc : processCandidate base a with _ | l
          · rw [hc] at h1; exact Or.inl h1
          · rw [hc] at h1
            rcases mem_addLink acc l v h1 with h2 | h2
            · exact Or.inl h2
            · exact Or.inr ⟨a, List.mem_cons_self a as, by rw [hc, h2]⟩
        · rw [if_neg hp] at h1; exact Or.inl h1
      · exact Or.inr ⟨b, List.mem_cons_of_mem a hb, hpc⟩

theorem mem_tier1Pass (base : UrlParts) (anchors : List Anchor) (v : String)
    (h : v ∈ tier1Pass base anchors) :
    ∃ a, a ∈ anchors ∧ processCandidate base a = some v := by
  have hgen : ∀ (idxs : List Nat) (acc : List String),
      v ∈ idxs.foldl (fun acc i => scanAdd base (matchesHighConf i) anchors acc) acc →
      v ∈ acc ∨ ∃ a, a ∈ anchors ∧ processCandidate base a = some v := by
    intro idxs
    induction idxs with
    | nil => intro acc hm; exact Or.inl hm
    | cons i is ih =>
        intro acc hm
        rw [List.foldl_cons] at hm
        rcases ih _ hm with h1 | h1
        · exact mem_scanAdd base (matchesHighConf i) anchors acc v h1
        · exact Or.inr h1
  rcases hgen (List.range 4) [] h with h1 | h1
  · exact absurd h1 (List.not_mem_nil v)
  · exact h1

theorem mem_tier12 (base : UrlParts) (anchors : List Anchor) (v : String)
    (h : v ∈ tier12 base anchors) :
    ∃ a, a ∈ anchors ∧ processCandidate base a = some v := by
  rcases mem_scanAdd base isNextText anchors (tier1Pass base anchors) v h with h1 | h1
  · exact mem_tier1Pass base anchors v h1
  · exact h1

theorem mem_tier3After (base : UrlParts) :
    ∀ (l : List Anchor) (v : String), v ∈ tier3After base l →
      ∃ a, a ∈ l ∧ processCandidate base a = some v := by
  intro l
  induction l with
  | nil => intro v h; exact absurd h (List.not_mem_nil v)
  | cons a as ih =>
      intro v h
      rw [tier3After] at h
      rcases hc : processCandidate base a with _ | w
      · rw [hc] at h
        obtain ⟨b, hb, hpc⟩ := ih v h
        exact ⟨b, List.mem_cons_of_mem a hb, hpc⟩
      · rw [hc] at h
        simp at h
        exact ⟨a, List.mem_cons_self a as, by rw [hc, h]⟩

theorem mem_tier3 (base : UrlParts) :
    ∀ (l : List Anchor) (v : String), v ∈ tier3 base l →
      ∃ a, a ∈ l ∧ processCandidate base a = some v := by
  intro l
  induction l with
  | nil => intro v h; exact absurd h (List.not_mem_nil v)
  | cons a as ih =>
      intro v h
      rw [tier3] at h
      split at h
      · obtain ⟨b, hb, hpc⟩ := mem_tier3After base as v h
        exact ⟨b, List.mem_cons_of_mem a hb, hpc⟩
      · obtain ⟨b, hb, hpc⟩ := ih v h
        exact ⟨b, List.mem_cons_of_mem a hb, hpc⟩

theorem mem_findSuccessors (base : UrlParts) (anchors : List Anchor) (v : String)
    (h : v ∈ findSuccessors base anchors) :
    ∃ a, a ∈ anchors ∧ processCandidate base a = some v := by
  rw [findSuccessors, findSuccessorsI] at h
  split at h
  · simp only at h
    obtain ⟨b, hb, hpc⟩ := mem_tier3 base (navAnchors anchors) v h
    exact ⟨b, List.mem_of_mem_filter hb, hpc⟩
  · exact mem_tier12 base anchors v h

theorem processCandidate_spec (base : UrlParts) (a : Anchor) (l : String)
    (h : processCandidate base a = some l) :
    ∃ hr, a.href = some hr ∧ truthyOpt a.hreflang = false ∧
      (resolveHref base hr).origin = base.origin ∧
      isAssetPath (resolveHref base hr).path = false ∧
      l = serializeUrl { resolveHref base hr with hash := "", search := "" } ∧
      l ≠ serializeUrl base := by
  rcases ha : a.href with _ | hr
  · simp [processCandidate, ha] at h
  · simp only [processCandidate, ha] at h
    by_cases ht : truthyOpt a.hreflang = true
    · rw [if_pos ht] at h; exact absurd h (by simp)
    · rw [if_neg ht] at h
      split at h
      · exact absurd h (by simp)
      · rename_i hcond
        push_neg at hcond
        obtain ⟨hsame, horig, hasset⟩ := hcond
        injection h with h2
        subst h2
        exact ⟨hr, rfl, by simpa using ht, horig, by simpa using hasset, rfl, hsame⟩

/-- C5 (amended): every URL returned by the successor detector passes the
candidate filter as the code implements it: the anchor has a (truthy) href
and no truthy `hreflang`, the resolved target is same-origin with the base
and not an asset path, and the candidate—serialized with fragment and query
dropped—differs from the raw `baseUrl` string.  (The base itself is *not*
normalized before the self-link comparison, so a self-referential anchor is
rejected only when the raw base string carries no fragment or query.) -/
theorem c5_candidate_filter (base : UrlParts) (anchors : List Anchor)
    (l : String) (hl : l ∈ findSuccessors base anchors) :
    ∃ a, a ∈ anchors ∧ ∃ hr, a.href = some hr ∧
      truthyOpt a.hreflang = false ∧
      (resolveHref base hr).origin = base.origin ∧
      isAssetPath (resolveHref base hr).path = false ∧
      l = serializeUrl { resolveHref base hr with hash := "", search := "" } ∧
      l ≠ serializeUrl base := by
  obtain ⟨a, ha, hpc⟩ := mem_findSuccessors base anchors l hl
  obtain ⟨hr, hspec⟩ := processCandidate_spec base a l hpc
  exact ⟨a, ha, hr, hspec⟩

/-- Base URL carrying a fragment, for the C5 counterexample. -/
def c5Base : UrlParts := ⟨"https://a.com", "/p", "", "#s"⟩

/-- A single `rel="next"` anchor resolving to the same page as the base. -/
def c5Anchors : List Anchor :=
  [⟨some (Href.rel "/p" "" ""), none, "x", some "next", "", none, false⟩]

/-- C5 counterexample: when the baseUrl itself carries a fragment, an anchor
resolving to the very same page (fragment and query dropped from both sides)
is *returned*, not rejected as a self-link, because the code compares the
normalized candidate against the raw base string (`scrape-url-flow.ts:69`). -/
theorem c5_counterexample :
    serializeUrl { resolveHref c5Base (Href.rel "/p" "" "") with
        hash := "", search := "" }
      = serializeUrl { c5Base with hash := "", search := "" } ∧
    findSuccessors c5Base c5Anchors = ["https://a.com/p"] := by
  decide

/-- Base URL for the C5 witness. -/
def c5WBase : UrlParts := ⟨"https://a.com", "/p", "", ""⟩

/-- A single `rel="next"` anchor to `/b`, for the C5 witness. -/
def c5WAnchors : List Anchor :=
  [⟨some (Href.rel "/b" "" ""), none, "x", some "next", "", none, false⟩]

theorem c5_candidate_filter_witness :
    ∃ a, a ∈ c5WAnchors ∧ ∃ hr, a.href = some hr ∧
      truthyOpt a.hreflang = false ∧
      (resolveHref c5WBase hr).origin = c5WBase.origin ∧
      isAssetPath (resolveHref c5WBase hr).path = false ∧
      "https://a.com/b" = serializeUrl { resolveHref c5WBase hr with
        hash := "", search := "" } ∧
      "https://a.com/b" ≠ serializeUrl c5WBase :=
  c5_candidate_filter c5WBase c5WAnchors "https://a.com/b" (by decide)

/-! ## Content extraction (`fetchAndProcessUrl`, `scrape-url-flow.ts:229-266`)

The DOM is a tree of elements (tag, id, class attribute, role, aria-hidden)
and text nodes; the document is represented by its `body` element.  The
selector language is restricted to the forms the extraction actually uses:
role, tag, class and id selectors.  The markdown conversion that follows a
successful selection is the external turndown library and is modelled
separately at the string level (`postProcessMarkdown`). -/

inductive HNode where
  | elem (tag : String) (id : Option String) (classAttr : String)
      (role : Option String) (ariaHidden : Bool) (children : List HNode)
  | text (s : String)

/-- Class-token membership (`.foo` selector semantics). -/
def hasClassTok (cls : String) (attr : String) : Bool :=
  (tokenize attr.toList).contains cls.toList

/-- The selector forms used by the content-selection priority list. -/
inductive CSel where
  | roleIs (r : String)
  | tagIs (t : String)
  | classHas (c : String)
  | idIs (i : String)

/-- Does a node match a selector?  Text nodes match nothing. -/
def selMatches (s : CSel) (n : HNode) : Bool :=
  match n with
  | .text _ => false
  | .elem tag id cls role _ _ =>
    match s with
    | .roleIs r => role = some r
    | .tagIs t => tag = t
    | .classHas c => hasClassTok c cls
    | .idIs i => id = some i

/-- The content-selection priority list (`contentSelectors`,
`scrape-url-flow.ts:230-239`): `[role="main"]`, `main`, `.main-content`,
`#main-content`, `.body`, `article`, `#content`, `.content`. -/
def contentSelectors : List CSel :=
  [.roleIs "main", .tagIs "main", .classHas "main-content", .idIs "main-content",
   .classHas "body", .tagIs "article", .idIs "content", .classHas "content"]

mutual

/-- First node matching the selector in preorder (document order). -/
def findFirstNode (s : CSel) (n : HNode) : Option HNode :=
  if selMatches s n then some n
  else
    match n with
    | .text _ => none
    | .elem _ _ _ _ _ ch => findFirstIn s ch

/-- First match across a sibling list, in order. -/
def findFirstIn (s : CSel) : List HNode → Option HNode
  | [] => none
  | n :: rest =>
    match findFirstNode s n with
    | some m => some m
    | none => findFirstIn s rest

end

/-- Selection loop of `scrape-url-flow.ts:241-248`: the first selector in
the priority list with a match wins; `none` when no selector matches. -/
def selectContentOpt (body : HNode) : Option HNode :=
  contentSelectors.foldl
    (fun acc sel =>
      match acc with
      | some m => some m
      | none => findFirstNode sel body) none

/-- Tags removed by the chrome-removal selector list
(`scrape-url-flow.ts:256-260`). -/
def removalTags : List String :=
  ["header", "footer", "nav", "aside", "script", "style"]

/-- Classes removed by the chrome-removal selector list. -/
def removalClasses : List String :=
  ["noprint", "header", "footer", "sidebar", "menu", "copyright", "navigation",
   "related-links", "mobile-nav", "sphinxsidebar"]

/-- Roles removed by the chrome-removal selector list. -/
def removalRoles : List String := ["banner", "contentinfo", "navigation"]

/-- Does an element match the removal selector list
(including `[aria-hidden="true"]`)? -/
def shouldRemove : HNode → Bool
  | .text _ => false
  | .elem tag _ cls role ariaHidden _ =>
    removalTags.contains tag ||
    removalClasses.any (fun c => hasClassTok c cls) ||
    (match role with
     | some r => removalRoles.contains r
     | none => false) ||
    ariaHidden

mutual

/-- Chrome removal within a node: strip matching descendants. -/
def cleanNode : HNode → HNode
  | .text s => .text s
  | .elem t i c r ah ch => .elem t i c r ah (cleanList ch)

/-- Chrome removal across a sibling list. -/
def cleanList : List HNode → List HNode
  | [] => []
  | n :: rest =>
    if shouldRemove n then cleanList rest else cleanNode n :: cleanList rest

end

mutual

/-- HTML serialization of one node (attributes elided; only emptiness of the
result matters for the extraction failure check). -/
def renderNode : HNode → String
  | .text s => s
  | .elem t _ _ _ _ ch => "<" ++ t ++ ">" ++ renderList ch ++ "</" ++ t ++ ">"

/-- HTML serialization of a sibling list (`$content.html()`). -/
def renderList : List HNode → String
  | [] => ""
  | n :: rest => renderNode n ++ renderList rest

end

/-- Children of a node. -/
def childrenOf : HNode → List HNode
  | .text _ => []
  | .elem _ _ _ _ _ ch => ch

/-- Outcome of the extraction step. -/
inductive ExtractResult where
  | success (contentHtml : String)
  | failure (reason : String)
deriving DecidableEq

/-- Content extraction (`scrape-url-flow.ts:241-266`): select the container
(whole body as fallback), remove chrome within it, and fail when no HTML
remains. -/
def extractContent (body : HNode) : ExtractResult :=
  if renderList (cleanList (childrenOf ((selectContentOpt body).getD body))) = ""
  then .failure "Main content not found after cleaning"
  else .success (renderList (cleanList (childrenOf ((selectContentOpt body).getD body))))

theorem cleanList_eq_nil_of_all_removed :
    ∀ (ch : List HNode), (∀ n ∈ ch, shouldRemove n = true) → cleanList ch = [] := by
  intro ch
  induction ch with
  | nil => intro h; rfl
  | cons n rest ih =>
      intro h
      rw [cleanList, if_pos (h n (List.mem_cons_self n rest))]
      exact ih (fun m hm => h m (List.mem_cons_of_mem n hm))

/-- C7 (amended): for every page body matched by no content selector and
whose children are all chrome (for example a body consisting only of a
`<nav>` element), extraction returns a failure value—not an exception and
not an empty-string success—whose reason string is
`'Main content not found after cleaning'`. -/
theorem c7_empty_content_failure (body : HNode)
    (hsel : selectContentOpt body = none)
    (hch : ∀ n ∈ childrenOf body, shouldRemove n = true) :
    extractContent body = .failure "Main content not found after cleaning" := by
  rw [extractContent, hsel]
  rw [if_pos]
  rw [Option.getD_none, cleanList_eq_nil_of_all_removed (childrenOf body) hch]
  rfl

/-- Concrete page whose entire body is a `<nav>` element. -/
def c7Body : HNode :=
  .elem "body" none "" none false
    [.elem "nav" none "" none false [.text "links"]]

/-- C7 counterexample: on the all-`<nav>` body the code does return a failure
value, but its reason string is `'Main content not found after cleaning'`,
not `"no main content"` as the claim states. -/
theorem c7_counterexample :
    extractContent c7Body = .failure "Main content not found after cleaning" ∧
    ("Main content not found after cleaning" : String) ≠ "no main content" := by
  exact ⟨rfl, by decide⟩

theorem c7_empty_content_failure_witness :
    extractContent c7Body = .failure "Main content not found after cleaning" :=
  c7_empty_content_failure c7Body rfl (by decide)

/-! ## Markdown post-processing (`postProcessMarkdown`,
`scrape-url-flow.ts:279-299`)

The function splits on the capturing regex `/(```[\s\S]*?```)/g`—segments
alternating between outside text and complete fenced blocks—then maps a
fence branch (backslash-escape removal) or an outside branch (the five
normalization replacements) over each segment and rejoins. -/

/-- Break a string at the first occurrence of three backticks:
`some (a, r)` with the input equal to `a ++ three-ticks ++ r` and no
three-tick run inside `a`. -/
def breakAtTicks : List Char → Option (List Char × List Char)
  | '`' :: '`' :: '`' :: rest => some ([], rest)
  | c :: cs =>
    (match breakAtTicks cs with
     | some (a, r) => some (c :: a, r)
     | none => none)
  | [] => none

/-- Segment split of the capturing regex `/(```[\s\S]*?```)/g`: fuelled by
the input length, which always suffices because every complete fence
consumes at least six characters while fuel decreases by one. -/
def splitFencesFuel : Nat → List Char → List (List Char)
  | 0, l => [l]
  | fuel + 1, l =>
    match breakAtTicks l with
    | none => [l]
    | some (a, rest) =>
      match breakAtTicks rest with
      | none => [l]
      | some (b, rest2) =>
        a :: ('`' :: '`' :: '`' :: (b ++ ['`', '`', '`'])) :: splitFencesFuel fuel rest2

/-- Fence-aware segmentation of a markdown string. -/
def splitFences (l : List Char) : List (List Char) := splitFencesFuel l.length l

/-- Fence branch (`seg.replace(/\\(_|\*|`)/g, '$1')`, line 285): remove the
backslash of escapes before underscore, asterisk and backtick. -/
def unescapeFence : List Char → List Char
  | [] => []
  | [c] => [c]
  | c1 :: c2 :: rest =>
    if c1 = '\\' ∧ (c2 = '_' ∨ c2 = '*' ∨ c2 = '`') then c2 :: unescapeFence rest
    else c1 :: unescapeFence (c2 :: rest)

/-- Normalize non-breaking spaces (`replace` of nbsp (u00A0) with a plain space, line 289). -/
def nbspToSpace (l : List Char) : List Char :=
  l.map (fun c => if c = '\u00A0' then ' ' else c)

/-- Emit a pending run of newlines, collapsed to two when three or more. -/
def emitNL (run : Nat) : List Char :=
  if 3 ≤ run then ['\n', '\n'] else List.replicate run '\n'

/-- Scan collapsing runs of three or more newlines
(`replace(/\n{3,}/g, '\n\n')`, line 291). -/
def collapseNLAux : Nat → List Char → List Char
  | run, [] => emitNL run
  | run, c :: rest =>
    if c = '\n' then collapseNLAux (run + 1) rest
    else emitNL run ++ c :: collapseNLAux 0 rest

/-- Blank-line collapsing entry point. -/
def collapseNL (l : List Char) : List Char := collapseNLAux 0 l

/-- Per-line effect of `replace(/(^|[^ ]) {3,}$/gm, m => m.trimEnd())`
(line 293): a trailing run of three or more spaces is removed, shorter runs
(the two-space hard break) are kept. -/
def trimLine (line : List Char) : List Char :=
  if 3 ≤ (line.reverse.takeWhile (fun c => c = ' ')).length then
    (line.reverse.dropWhile (fun c => c = ' ')).reverse
  else line

/-- Trailing-space trimming over all lines. -/
def trimTrailingSpaces (l : List Char) : List Char :=
  List.intercalate ['\n'] ((l.splitOn '\n').map trimLine)

/-- Ensure a blank line precedes a fence
(`replace(/([^\n])\n```/g, '$1\n\n```')`, line 295). -/
def blankBeforeFence : List Char → List Char
  | c :: '\n' :: '`' :: '`' :: '`' :: rest =>
    if c = '\n' then c :: blankBeforeFence ('\n' :: '`' :: '`' :: '`' :: rest)
    else c :: '\n' :: '\n' :: '`' :: '`' :: '`' :: blankBeforeFence rest
  | c :: rest => c :: blankBeforeFence rest
  | [] => []

/-- Remove stray backslashes before underscores (`replace(/\\_/g, '_')`,
line 297). -/
def stripUnderscoreEsc : List Char → List Char
  | '\\' :: '_' :: rest => '_' :: stripUnderscoreEsc rest
  | c :: rest => c :: stripUnderscoreEsc rest
  | [] => []

/-- Outside-of-fence branch: the five replacements in source order. -/
def procOutside (seg : List Char) : List Char :=
  stripUnderscoreEsc (blankBeforeFence (trimTrailingSpaces (collapseNL (nbspToSpace seg))))

/-- Per-segment map of `postProcessMarkdown`: fence segments (starting with
three backticks) get the escape removal, other segments the normalization. -/
def procSeg (seg : List Char) : List Char :=
  if seg.take 3 = ['`', '`', '`'] then unescapeFence seg else procOutside seg

/-- Markdown post-processing (`scrape-url-flow.ts:279-299`). -/
def postProcessMarkdown (md : List Char) : List Char :=
  ((splitFences md).map procSeg).flatten

theorem unescapeFence_of_no_backslash :
    ∀ (l : List Char), (∀ c ∈ l, c ≠ '\\') → unescapeFence l = l := by
  intro l
  induction l with
  | nil => intro h; rfl
  | cons c rest ih =>
      intro h
      have hc : c ≠ '\\' := h c (List.mem_cons_self c rest)
      have hrest := ih (fun d hd => h d (List.mem_cons_of_mem c hd))
      cases rest with
      | nil => rfl
      | cons d rest2 =>
          rw [unescapeFence, if_neg (by simp [hc]), hrest]

/-- C8 (amended): `postProcessMarkdown` is the segment-wise map over the
fence split, and on every fence segment it applies exactly the
backslash-escape removal—so a fence whose interior contains no backslash is
byte-for-byte unchanged (the blank-line collapsing, nbsp stripping and
fence-spacing rules act only on the outside segments). -/
theorem c8_fence_interiors (md : List Char) :
    postProcessMarkdown md = ((splitFences md).map procSeg).flatten ∧
    ∀ seg ∈ splitFences md, seg.take 3 = ['`', '`', '`'] →
      procSeg seg = unescapeFence seg ∧
      ((∀ c ∈ seg, c ≠ '\\') → procSeg seg = seg) := by
  refine ⟨rfl, ?_⟩
  intro seg _ hseg
  have hfence : procSeg seg = unescapeFence seg := by rw [procSeg, if_pos hseg]
  exact ⟨hfence, fun hnb => hfence.trans (unescapeFence_of_no_backslash seg hnb)⟩

/-- C8 counterexample: a fenced block whose interior holds the two bytes
`\_` comes out with the backslash removed—the interior is not
byte-preserved. -/
theorem c8_counterexample :
    postProcessMarkdown ['`', '`', '`', '\n', '\\', '_', '\n', '`', '`', '`']
      = ['`', '`', '`', '\n', '_', '\n', '`', '`', '`'] ∧
    (['`', '`', '`', '\n', '_', '\n', '`', '`', '`'] : List Char)
      ≠ ['`', '`', '`', '\n', '\\', '_', '\n', '`', '`', '`'] := by
  decide

/-- Markdown input for the C8 witness: text followed by a clean fence. -/
def c8WMd : List Char :=
  'a' :: ['`', '`', '`', '\n', 'x', '\n', '`', '`', '`']

/-- The fence segment of `c8WMd`. -/
def c8WSeg : List Char := ['`', '`', '`', '\n', 'x', '\n', '`', '`', '`']

theorem c8_fence_interiors_witness : procSeg c8WSeg = c8WSeg :=
  ((c8_fence_interiors c8WMd).2 c8WSeg (by decide) (by decide)).2 (by decide)

/-! ## Flow finalization (`scrape-url-flow.ts:362-437`)

After the loop, an empty `results` returns `[]` before anything else; the
document title uses a caller-supplied truthy `existingTitle` or the
URL-derived title (the platform-URL-parsing derivation of lines 399-417 is
abstracted as `deriveTitleFn`); the AI description (line 421) is generated
by the external summarizer—abstracted as `descOracle`—only when
`existingTitle` is falsy.  The returned Boolean instruments whether
`generateFastDescription` was invoked. -/

/-- One formatted page section as a string
(`scrape-url-flow.ts:368`). -/
def sectionStr (p : PageRec) : String :=
  "## " ++ p.title ++ "\n\nURL: " ++ p.url ++ "\n\n" ++ p.content

/-- The aggregated document body: sections joined with the separator
(`scrape-url-flow.ts:392`). -/
def aggregatedContent (results : List PageRec) : String :=
  String.intercalate "\n\n---\n\n" (results.map sectionStr)

/-- The document record assembled at `scrape-url-flow.ts:423-429`. -/
structure DocRecord where
  url : String
  title : String
  content : String
  image : Option String
  aiDescription : Option String
deriving DecidableEq

/-- Post-loop finalization: `none` when zero page records were collected
(line 362); otherwise the assembled record, with the description oracle
consulted exactly when `existingTitle` is falsy. -/
def scrapeFinish (descOracle : String → Nat → Option String)
    (deriveTitleFn : String → String) (startUrl : String)
    (existingTitle : Option String) (coverImage : Option String)
    (results : List PageRec) : Option DocRecord × Bool :=
  if results.length = 0 then (none, false)
  else
    (some
      { url := startUrl,
        title :=
          if truthyOpt existingTitle then existingTitle.getD ""
          else deriveTitleFn startUrl,
        content := aggregatedContent results,
        image := coverImage,
        aiDescription :=
          if truthyOpt existingTitle then none
          else descOracle (aggregatedContent results) results.length },
     !truthyOpt existingTitle)

/-- The whole flow: crawl loop followed by finalization. -/
def scrapeFlow (fetchRes : String → FetchResult)
    (succ : String → String → List String) (maxPages : Nat) (startUrl : String)
    (existingTitle : Option String) (descOracle : String → Nat → Option String)
    (deriveTitleFn : String → String) (fuel : Nat) : Option DocRecord × Bool :=
  scrapeFinish descOracle deriveTitleFn startUrl existingTitle
    (crawlRun fetchRes succ maxPages fuel (initState startUrl)).coverImage
    (crawlRun fetchRes succ maxPages fuel (initState startUrl)).results

/-- C10 (amended): when `existingTitle` is truthy (supplied and non-empty),
the summarizer is never invoked and the returned document's `aiDescription`
is `undefined`; conversely the summarizer is invoked only when
`existingTitle` is falsy and at least one page record was collected.
(A supplied but *empty* `existingTitle` is falsy, so the update flow skips
summarization only for non-empty titles.) -/
theorem c10_description_skip (fetchRes : String → FetchResult)
    (succ : String → String → List String) (maxPages : Nat) (startUrl : String)
    (existingTitle : Option String) (descOracle : String → Nat → Option String)
    (deriveTitleFn : String → String) (fuel : Nat) :
    (truthyOpt existingTitle = true →
      (scrapeFlow fetchRes succ maxPages startUrl existingTitle descOracle
          deriveTitleFn fuel).2 = false ∧
      ∀ doc, (scrapeFlow fetchRes succ maxPages startUrl existingTitle descOracle
          deriveTitleFn fuel).1 = some doc → doc.aiDescription = none) ∧
    ((scrapeFlow fetchRes succ maxPages startUrl existingTitle descOracle
        deriveTitleFn fuel).2 = true →
      truthyOpt existingTitle = false ∧
      (crawlRun fetchRes succ maxPages fuel (initState startUrl)).results ≠ []) := by
  rw [scrapeFlow, scrapeFinish]
  by_cases hz :
      (crawlRun fetchRes succ maxPages fuel (initState startUrl)).results.length = 0
  · rw [if_pos hz]
    refine ⟨fun ht => ⟨rfl, fun doc hdoc => absurd hdoc (by simp)⟩, fun hcall => ?_⟩
    exact absurd hcall (by simp)
  · rw [if_neg hz]
    constructor
    · intro ht
      refine ⟨by simp [ht], fun doc hdoc => ?_⟩
      have := (Option.some.injEq _ _).mp hdoc
      rw [← this]
      simp [ht]
    · intro hcall
      simp only at hcall
      have hft : truthyOpt existingTitle = false := by
        cases hv : truthyOpt existingTitle
        · rfl
        · rw [hv] at hcall; simp at hcall
      refine ⟨hft, fun hnil => hz (by rw [hnil]; rfl)⟩

/-- Fetch oracle for the C10 scenario. -/
def c10Fetch : String → FetchResult := fun _ => .success "T" "c" "h" none

/-- Successor oracle for the C10 scenario. -/
def c10Succ : String → String → List String := fun _ _ => []

/-- Description oracle returning a fixed summary. -/
def c10Desc : String → Nat → Option String := fun _ _ => some "d"

/-- Title-derivation stand-in (the default value of line 395). -/
def c10Derive : String → String := fun _ => "Documentation"

/-- C10 counterexample: `existingTitle` supplied as the empty string is
falsy, so the summarizer *is* invoked even though a title was supplied. -/
theorem c10_counterexample :
    (scrapeFlow c10Fetch c10Succ 1 "a" (some "") c10Desc c10Derive 2).2 = true := by
  decide

theorem c10_description_skip_witness :
    (scrapeFlow c10Fetch c10Succ 1 "a" (some "T") c10Desc c10Derive 2).2 = false ∧
    ∀ doc, (scrapeFlow c10Fetch c10Succ 1 "a" (some "T") c10Desc c10Derive 2).1
        = some doc → doc.aiDescription = none :=
  (c10_description_skip c10Fetch c10Succ 1 "a" (some "T") c10Desc c10Derive 2).1
    (by decide)

end DocuScribe
